import Mathlib

/-!
Shallow embedding of the handbook content subsystem of the website repository
(`src/lib/handbook.ts`, `src/components/handbook/article-content.tsx`,
`src/app/front-end-engineer-handbook/[slug]/page.tsx`) together with proofs of
the specification's claims about it.

The content directory is modelled as a list of `ContentFile` values (filename,
parsed front matter, markdown body).  JavaScript truthiness on optional strings
(`x || y`) and nullish coalescing (`x ?? y`) are modelled explicitly, as is the
`|| 999` defaulting that treats a numeric `0` as absent.
-/

namespace Handbook

/-- Front matter parsed from a markdown content file (the `data` object
returned by `gray-matter`).  Absent keys are `none`. -/
structure FrontMatter where
  title : Option String := none
  description : Option String := none
  keywords : Option (List String) := none
  order : Option Int := none
  category : Option String := none
  categoryOrder : Option Int := none
  deriving Repr, DecidableEq

/-- A file of the content directory: its filename, its parsed front matter and
its markdown body. -/
structure ContentFile where
  name : String
  fm : FrontMatter
  body : String
  deriving Repr, DecidableEq

/-- JavaScript `o || dflt` on an optional string: `undefined`/`null` and the
empty string are falsy. -/
def strOr (o : Option String) (dflt : String) : String :=
  match o with
  | some s => if s = "" then dflt else s
  | none => dflt

/-- JavaScript `o || null` (or `o || undefined`) on an optional string: an
empty string collapses to `none`. -/
def optStr (o : Option String) : Option String :=
  match o with
  | some s => if s = "" then none else some s
  | none => none

/-- JavaScript `v || d` on a number: `0` is falsy, every other integer is
truthy. -/
def jsOrDefault (v : Int) (d : Int) : Int :=
  if v = 0 then d else v

/-- JavaScript truthiness of an optional string (`if (page.category)`). -/
def optTruthy (o : Option String) : Bool :=
  match o with
  | some s => !(s == "")
  | none => false

/-- Code point test for the regex class `[a-z0-9]` used by the slugification
regexes (97–122 are `a`–`z`, 48–57 are `0`–`9`). -/
def isSlugChar (c : Char) : Bool :=
  (97 ≤ c.toNat && c.toNat ≤ 122) || (48 ≤ c.toNat && c.toNat ≤ 57)

/-- ASCII lowercasing of one character, modelling `String.prototype.toLowerCase`
on the ASCII range (65–90 are `A`–`Z`; code point shifted by 32). -/
def lowerChar (c : Char) : Char :=
  if 65 ≤ c.toNat && c.toNat ≤ 90 then Char.ofNat (c.toNat + 32) else c

/-- One pass of `.replace(/[^a-z0-9]+/g, '-')`: each maximal run of
non-alphanumeric characters becomes a single hyphen.  The boolean records
whether we are currently inside such a run. -/
def collapseAux (inRun : Bool) : List Char → List Char
  | [] => []
  | c :: rest =>
    if isSlugChar c then c :: collapseAux false rest
    else if inRun then collapseAux true rest
    else '-' :: collapseAux true rest

/-- `.replace(/[^a-z0-9]+/g, '-')` over a character list. -/
def collapseRuns (cs : List Char) : List Char :=
  collapseAux false cs

/-- The `^-` half of `.replace(/(^-|-$)/g, '')`: remove a single leading
hyphen. -/
def dropLeadHyphen : List Char → List Char
  | [] => []
  | c :: rest => if c = '-' then rest else c :: rest

/-- The `-$` half of `.replace(/(^-|-$)/g, '')`: remove a single trailing
hyphen. -/
def dropTailHyphen (cs : List Char) : List Char :=
  (dropLeadHyphen cs.reverse).reverse

/-- `slugifyCategory` from `src/lib/handbook.ts`:
`category.toLowerCase().replace(/[^a-z0-9]+/g, '-').replace(/(^-|-$)/g, '')`.
Lowercasing is modelled on the ASCII range. -/
def slugifyCategory (category : String) : String :=
  ⟨dropTailHyphen (dropLeadHyphen (collapseRuns (category.data.map lowerChar)))⟩

/-- `fileName.endsWith('.md')`: the last three characters are `.`, `m`, `d`
(checked on the reversed character list). -/
def hasMdExt (n : String) : Bool :=
  n.data.reverse.take 3 == ['d', 'm', '.']

/-- `fileName.replace(/\.md$/, '')`: drop the final `.md` when present,
otherwise leave the name unchanged. -/
def stripMd (n : String) : String :=
  if hasMdExt n then ⟨(n.data.reverse.drop 3).reverse⟩ else n

/-- Slug derivation used by `getHandbookNavigation`, `getAllHandbookSlugs` and
the page objects: strip the `.md` extension and map the base name `index` to
the reserved empty slug. -/
def slugOfFileName (n : String) : String :=
  let base := stripMd n
  if base == "index" then "" else base

/-- `HandbookNavItem` from `src/lib/handbook.ts`, as produced by
`getHandbookNavigation` (where `order` and `categoryOrder` have already been
defaulted with `?? 999` and `category` with `|| null`). -/
structure HandbookNavItem where
  slug : String
  title : String
  order : Int
  category : Option String
  categoryOrder : Int
  deriving Repr, DecidableEq

/-- The per-file mapping step of `getHandbookNavigation`: derive the slug and
apply the front-matter defaults (`data.title || slug`, `data.order ?? 999`,
`data.category || null`, `data.categoryOrder ?? 999`). -/
def toNavItem (f : ContentFile) : HandbookNavItem :=
  let slug := slugOfFileName f.name
  { slug := slug
    title := strOr f.fm.title slug
    order := f.fm.order.getD 999
    category := optStr f.fm.category
    categoryOrder := f.fm.categoryOrder.getD 999 }

/-- The `allPages` list of `getHandbookNavigation`: keep `.md` files, in
directory-enumeration order, and map each to its nav item. -/
def allNavPages (files : List ContentFile) : List HandbookNavItem :=
  (files.filter (fun f => hasMdExt f.name)).map toNavItem

/-- The `categorizedPages` list of `getHandbookNavigation`:
`allPages.filter(p => p.slug !== '' && p.category)`. -/
def categorizedNavPages (files : List ContentFile) : List HandbookNavItem :=
  (allNavPages files).filter (fun p => !(p.slug == "") && p.category.isSome)

/-- Insertion order of the keys of the `categoryMap` built by
`getHandbookNavigation`: category names in order of first occurrence. -/
def categoryKeys (pages : List HandbookNavItem) : List String :=
  pages.foldl
    (fun acc p =>
      match p.category with
      | some c => if acc.contains c then acc else acc ++ [c]
      | none => acc)
    []

/-- The array accumulated in `categoryMap` for a given category name: the
categorized pages carrying that name, in enumeration order (pages are pushed
in `forEach` order). -/
def rawCategoryItems (pages : List HandbookNavItem) (name : String) : List HandbookNavItem :=
  pages.filter (fun p => p.category == some name)

/-- The value stored in `categoryOrderMap` for a name: the first-encountered
page's `page.categoryOrder || 999` (set only when the key is first created). -/
def rawCategoryOrder (pages : List HandbookNavItem) (name : String) : Int :=
  match pages.find? (fun p => p.category == some name) with
  | some p => jsOrDefault p.categoryOrder 999
  | none => 999

/-- The comparator `(a, b) => a.order - b.order` used on items, as the
non-strict ordering a stable sort realises. -/
def itemLE (a b : HandbookNavItem) : Prop :=
  a.order ≤ b.order

instance : DecidableRel itemLE :=
  fun a b => inferInstanceAs (Decidable (a.order ≤ b.order))

instance : IsTotal HandbookNavItem itemLE :=
  ⟨fun a b => Int.le_total a.order b.order⟩

instance : IsTrans HandbookNavItem itemLE :=
  ⟨fun _ _ _ h h' => le_trans h h'⟩

/-- `HandbookCategory` from `src/lib/handbook.ts`. -/
structure HandbookCategory where
  name : String
  slug : String
  order : Int
  items : List HandbookNavItem
  deriving Repr, DecidableEq

/-- The comparator `(a, b) => a.order - b.order` used on categories. -/
def catLE (a b : HandbookCategory) : Prop :=
  a.order ≤ b.order

instance : DecidableRel catLE :=
  fun a b => inferInstanceAs (Decidable (a.order ≤ b.order))

instance : IsTotal HandbookCategory catLE :=
  ⟨fun a b => Int.le_total a.order b.order⟩

instance : IsTrans HandbookCategory catLE :=
  ⟨fun _ _ _ h h' => le_trans h h'⟩

/-- The category record built for one name: slugified name, the stored
category order re-read with `categoryOrderMap.get(name) || 999`, and the
items stably sorted by `order` (JavaScript `Array.prototype.sort` is stable;
insertion sort with the non-strict key order realises exactly that). -/
def mkCategory (pages : List HandbookNavItem) (name : String) : HandbookCategory :=
  { name := name
    slug := slugifyCategory name
    order := jsOrDefault (rawCategoryOrder pages name) 999
    items := List.insertionSort itemLE (rawCategoryItems pages name) }

/-- `HandbookNavigation` from `src/lib/handbook.ts`. -/
structure HandbookNavigation where
  introduction : Option HandbookNavItem
  categories : List HandbookCategory
  deriving Repr, DecidableEq

/-- `getHandbookNavigation` from `src/lib/handbook.ts`, over a modelled
content directory. -/
def getHandbookNavigation (files : List ContentFile) : HandbookNavigation :=
  { introduction := (allNavPages files).find? (fun p => p.slug == "")
    categories :=
      List.insertionSort catLE
        ((categoryKeys (categorizedNavPages files)).map
          (mkCategory (categorizedNavPages files))) }

/-- `getAllHandbookPages` from `src/lib/handbook.ts`: the flattened list —
introduction first when present, then each category's items in category
order. -/
def getAllHandbookPages (files : List ContentFile) : List HandbookNavItem :=
  let nav := getHandbookNavigation files
  (match nav.introduction with
   | some i => [i]
   | none => []) ++
    nav.categories.foldr (fun c acc => c.items ++ acc) []

/-- Modelled from the spec: the markdown renderer (the external
`remark`/`remark-html` pipeline, which is a third-party library and not part
of this repository) is a deterministic pure function of the body.  No claim
inspects its output, so it is modelled as the identity on the body. -/
def renderMarkdown (body : String) : String :=
  body

/-- `HandbookPage` from `src/lib/handbook.ts`. -/
structure HandbookPage where
  slug : String
  title : String
  description : String
  keywords : List String
  order : Int
  category : Option String
  categoryOrder : Option Int
  content : String
  contentHtml : String
  deriving Repr, DecidableEq

/-- `getHandbookPage` from `src/lib/handbook.ts`: resolve the filename
(`index.md` for the empty slug, `slug + '.md'` otherwise), return `none` when
no such file exists, otherwise assemble the page with the documented
front-matter defaults. -/
def getHandbookPage (files : List ContentFile) (slug : String) : Option HandbookPage :=
  let fileName := if slug == "" then "index.md" else slug ++ ".md"
  (files.find? (fun f => f.name == fileName)).map fun f =>
    { slug := if slug == "" then "" else slug
      title := strOr f.fm.title slug
      description := strOr f.fm.description ""
      keywords := f.fm.keywords.getD []
      order := f.fm.order.getD 999
      category := optStr f.fm.category
      categoryOrder := f.fm.categoryOrder
      content := f.body
      contentHtml := renderMarkdown f.body }

/-- `getAllHandbookSlugs` from `src/lib/handbook.ts`. -/
def getAllHandbookSlugs (files : List ContentFile) : List String :=
  (files.filter (fun f => hasMdExt f.name)).map (fun f => slugOfFileName f.name)

/-- JavaScript array indexing by a (possibly negative) integer: negative and
out-of-range indices yield `undefined`. -/
def jsIndex (pages : List HandbookNavItem) (i : Int) : Option HandbookNavItem :=
  if i < 0 then none else pages[i.toNat]?

/-- The prev/next resolution of `ArticleContent`
(`src/components/handbook/article-content.tsx`):
`currentIndex = pages.findIndex(p => p.slug === page.slug)`, which is `-1`
when no element matches. -/
def articleCurrentIndex (pages : List HandbookNavItem) (slug : String) : Int :=
  match pages.findIdx? (fun p => p.slug == slug) with
  | some i => (i : Int)
  | none => -1

/-- The prev/next pair itself: `prevPage = currentIndex > 0 ?
pages[currentIndex - 1] : null`, `nextPage = currentIndex < pages.length - 1 ?
pages[currentIndex + 1] : null`. -/
def articlePrevNext (pages : List HandbookNavItem) (slug : String) :
    Option HandbookNavItem × Option HandbookNavItem :=
  let currentIndex : Int := articleCurrentIndex pages slug
  let len : Int := (pages.length : Int)
  let prevPage : Option HandbookNavItem :=
    if 0 < currentIndex then jsIndex pages (currentIndex - 1) else none
  let nextPage : Option HandbookNavItem :=
    if currentIndex < len - 1 then jsIndex pages (currentIndex + 1) else none
  (prevPage, nextPage)

/-- One `ListItem` of the breadcrumb JSON-LD. -/
structure BreadcrumbItem where
  position : Nat
  name : String
  item : String
  deriving Repr, DecidableEq

/-- `generateBreadcrumbJsonLd` from
`src/app/front-end-engineer-handbook/[slug]/page.tsx`: Home and Handbook
entries always; when `page.category` is truthy, a category entry (anchor link
built with `toLowerCase().replace(/[^a-z0-9]+/g, '-')`, no edge trimming) and
the page entry at positions 3 and 4; otherwise the page entry at position 3. -/
def generateBreadcrumbJsonLd (page : HandbookPage) (slug : String) : List BreadcrumbItem :=
  let base : List BreadcrumbItem :=
    [{ position := 1, name := "Home", item := "https://dima-tolmachev.com" },
     { position := 2, name := "Front-end Engineer Handbook",
       item := "https://dima-tolmachev.com/front-end-engineer-handbook" }]
  if optTruthy page.category then
    base ++
      [{ position := 3, name := page.category.getD "",
         item := "https://dima-tolmachev.com/front-end-engineer-handbook#" ++
           (⟨collapseRuns ((page.category.getD "").data.map lowerChar)⟩ : String) },
       { position := 4, name := page.title,
         item := "https://dima-tolmachev.com/front-end-engineer-handbook/" ++ slug }]
  else
    base ++
      [{ position := 3, name := page.title,
         item := "https://dima-tolmachev.com/front-end-engineer-handbook/" ++ slug }]

/-! ### Properties of the slugification pipeline -/

/-- Two adjacent characters are not both hyphens. -/
def noHH (a b : Char) : Prop :=
  ¬(a = '-' ∧ b = '-')

lemma ne_hyphen_of_isSlugChar {c : Char} (h : isSlugChar c = true) : c ≠ '-' := by
  intro he
  subst he
  exact absurd h (by decide)

lemma lowerChar_eq_self {c : Char} (h : isSlugChar c = true ∨ c = '-') : lowerChar c = c := by
  have h' : (97 ≤ c.toNat ∧ c.toNat ≤ 122) ∨ (48 ≤ c.toNat ∧ c.toNat ≤ 57) ∨ c.toNat = 45 := by
    rcases h with h | h
    · simp only [isSlugChar, Bool.or_eq_true, Bool.and_eq_true, decide_eq_true_eq] at h
      tauto
    · subst h; right; right; rfl
  unfold lowerChar
  cases hb : (65 ≤ c.toNat && c.toNat ≤ 90) with
  | false => simp [hb]
  | true =>
    simp only [Bool.and_eq_true, decide_eq_true_eq] at hb
    exfalso
    omega

lemma mem_collapseAux (cs : List Char) :
    ∀ (b : Bool) (c : Char), c ∈ collapseAux b cs → isSlugChar c = true ∨ c = '-' := by
  induction cs with
  | nil => intro b c h; simp [collapseAux] at h
  | cons d rest ih =>
    intro b c h
    rw [collapseAux] at h
    by_cases hd : isSlugChar d = true
    · rw [if_pos hd] at h
      rcases List.mem_cons.mp h with h | h
      · subst h; exact Or.inl hd
      · exact ih false c h
    · rw [if_neg hd] at h
      cases b with
      | true =>
        rw [if_pos rfl] at h
        exact ih true c h
      | false =>
        rw [if_neg (by simp)] at h
        rcases List.mem_cons.mp h with h | h
        · exact Or.inr h
        · exact ih true c h

lemma head?_collapseAux_true (cs : List Char) :
    ∀ c : Char, (collapseAux true cs).head? = some c → isSlugChar c = true := by
  induction cs with
  | nil => intro c h; simp [collapseAux] at h
  | cons d rest ih =>
    intro c h
    rw [collapseAux] at h
    by_cases hd : isSlugChar d = true
    · rw [if_pos hd] at h
      simp only [List.head?_cons, Option.some.injEq] at h
      subst h; exact hd
    · rw [if_neg hd, if_pos rfl] at h
      exact ih c h

lemma chain'_collapseAux (cs : List Char) :
    ∀ b : Bool, (collapseAux b cs).Chain' noHH := by
  induction cs with
  | nil => intro b; simp [collapseAux]
  | cons d rest ih =>
    intro b
    rw [collapseAux]
    by_cases hd : isSlugChar d = true
    · rw [if_pos hd]
      rw [List.chain'_cons']
      refine ⟨?_, ih false⟩
      intro y _ hy
      exact ne_hyphen_of_isSlugChar hd hy.1
    · rw [if_neg hd]
      cases b with
      | true => rw [if_pos rfl]; exact ih true
      | false =>
        rw [if_neg (by simp)]
        rw [List.chain'_cons']
        refine ⟨?_, ih true⟩
        intro y hy hcontra
        have hys : isSlugChar y = true := head?_collapseAux_true rest y hy
        exact ne_hyphen_of_isSlugChar hys hcontra.2

lemma dropLeadHyphen_eq_or (cs : List Char) :
    dropLeadHyphen cs = cs ∨ cs = '-' :: dropLeadHyphen cs := by
  cases cs with
  | nil => exact Or.inl rfl
  | cons c rest =>
    by_cases hc : c = '-'
    · subst hc; right; rw [dropLeadHyphen, if_pos rfl]
    · left; rw [dropLeadHyphen, if_neg hc]

lemma head?_dropLeadHyphen {cs : List Char} (h : cs.Chain' noHH) :
    ∀ c, (dropLeadHyphen cs).head? = some c → c ≠ '-' := by
  cases cs with
  | nil => intro c hc; simp [dropLeadHyphen] at hc
  | cons d rest =>
    intro c hc
    by_cases hd : d = '-'
    · subst hd
      rw [dropLeadHyphen, if_pos rfl] at hc
      rw [List.chain'_cons'] at h
      intro he
      exact h.1 c hc ⟨rfl, he⟩
    · rw [dropLeadHyphen, if_neg hd] at hc
      simp only [List.head?_cons, Option.some.injEq] at hc
      subst hc; exact hd

lemma dropLeadHyphen_eq_self {cs : List Char} (h : ∀ c, cs.head? = some c → c ≠ '-') :
    dropLeadHyphen cs = cs := by
  cases cs with
  | nil => rfl
  | cons c rest =>
    rw [dropLeadHyphen, if_neg (h c rfl)]

lemma chain'_flip_noHH {cs : List Char} (h : cs.Chain' noHH) : cs.Chain' (flip noHH) :=
  h.imp (fun _ _ hab => fun hba => hab ⟨hba.2, hba.1⟩)

lemma collapseAux_true_eq_false {d : Char} (hd : isSlugChar d = true) (r : List Char) :
    collapseAux true (d :: r) = collapseAux false (d :: r) := by
  rw [collapseAux, collapseAux, if_pos hd, if_pos hd]

lemma collapseAux_eq_self : ∀ cs : List Char,
    (∀ c ∈ cs, isSlugChar c = true ∨ c = '-') → cs.Chain' noHH → cs.getLast? ≠ some '-' →
    collapseAux false cs = cs := by
  intro cs
  induction cs with
  | nil => intro _ _ _; rfl
  | cons c rest ih =>
    intro hmem hch hlast
    by_cases hc : isSlugChar c = true
    · rw [collapseAux, if_pos hc]
      have hrest : collapseAux false rest = rest := by
        refine ih (fun d hd => hmem d (List.mem_cons_of_mem c hd)) ((List.chain'_cons'.mp hch).2) ?_
        cases rest with
        | nil => simp
        | cons d r => rw [← List.getLast?_cons_cons (a := c)]; exact hlast
      rw [hrest]
    · have hc' : c = '-' := (hmem c (List.mem_cons_self c rest)).resolve_left hc
      subst hc'
      cases rest with
      | nil => exact absurd rfl hlast
      | cons d r =>
        have hd : isSlugChar d = true := by
          rcases hmem d (List.mem_cons_of_mem _ (List.mem_cons_self d r)) with h | h
          · exact h
          · exfalso
            exact (List.chain'_cons.mp hch).1 ⟨rfl, h⟩
        have hrest : collapseAux false (d :: r) = d :: r := by
          refine ih (fun e he => hmem e (List.mem_cons_of_mem _ he)) ((List.chain'_cons'.mp hch).2) ?_
          rw [← List.getLast?_cons_cons (a := '-')]; exact hlast
        rw [collapseAux, if_neg hc, if_neg (by simp), collapseAux_true_eq_false hd, hrest]

lemma slug_output_props (s : String) :
    (∀ c ∈ (slugifyCategory s).data, isSlugChar c = true ∨ c = '-') ∧
    (slugifyCategory s).data.Chain' noHH ∧
    (∀ c, (slugifyCategory s).data.head? = some c → c ≠ '-') ∧
    (slugifyCategory s).data.getLast? ≠ some '-' := by
  have hdata : (slugifyCategory s).data =
      dropTailHyphen (dropLeadHyphen (collapseRuns (s.data.map lowerChar))) := rfl
  set u := collapseRuns (s.data.map lowerChar) with hu
  set v := dropLeadHyphen u with hv
  set t := dropTailHyphen v with ht
  have hmem_u : ∀ c ∈ u, isSlugChar c = true ∨ c = '-' := fun c hc =>
    mem_collapseAux _ false c hc
  have hch_u : u.Chain' noHH := chain'_collapseAux _ false
  have hmem_v : ∀ c ∈ v, isSlugChar c = true ∨ c = '-' := by
    rcases dropLeadHyphen_eq_or u with h | h
    · rw [hv, h]; exact hmem_u
    · intro c hc
      exact hmem_u c (h ▸ List.mem_cons_of_mem '-' hc)
  have hch_v : v.Chain' noHH := by
    rcases dropLeadHyphen_eq_or u with h | h
    · rw [hv, h]; exact hch_u
    · have := hch_u
      rw [h] at this
      exact (List.chain'_cons'.mp this).2
  have hhead_v : ∀ c, v.head? = some c → c ≠ '-' := head?_dropLeadHyphen hch_u
  have htv : t = v ∨ v = t ++ ['-'] := by
    rcases dropLeadHyphen_eq_or v.reverse with h | h
    · left
      rw [ht, dropTailHyphen, h, List.reverse_reverse]
    · right
      have h2 : v.reverse = '-' :: t.reverse := by
        rw [ht, dropTailHyphen, List.reverse_reverse]
        exact h
      have := congrArg List.reverse h2
      rw [List.reverse_reverse, List.reverse_cons] at this
      rw [this, List.reverse_reverse]
  have hmem_t : ∀ c ∈ t, isSlugChar c = true ∨ c = '-' := by
    rcases htv with h | h
    · rw [h]; exact hmem_v
    · intro c hc
      exact hmem_v c (h ▸ List.mem_append_left _ hc)
  have hch_t : t.Chain' noHH := by
    rcases htv with h | h
    · rw [h]; exact hch_v
    · have := hch_v
      rw [h] at this
      exact (List.chain'_append.mp this).1
  have hhead_t : ∀ c, t.head? = some c → c ≠ '-' := by
    rcases htv with h | h
    · rw [h]; exact hhead_v
    · intro c hc
      apply hhead_v c
      rw [h, List.head?_append, hc]
      rfl
  have hlast_t : t.getLast? ≠ some '-' := by
    have h1 : t.getLast? = (dropLeadHyphen v.reverse).head? := by
      rw [ht, dropTailHyphen, List.getLast?_reverse]
    have hch_vr : v.reverse.Chain' noHH := by
      rw [List.chain'_reverse]
      exact chain'_flip_noHH hch_v
    intro hcontra
    rw [h1] at hcontra
    exact head?_dropLeadHyphen hch_vr '-' hcontra rfl
  rw [hdata]
  exact ⟨hmem_t, hch_t, hhead_t, hlast_t⟩

lemma slugifyCategory_idem (s : String) :
    slugifyCategory (slugifyCategory s) = slugifyCategory s := by
  obtain ⟨hmem, hch, hhead, hlast⟩ := slug_output_props s
  set t := (slugifyCategory s).data with ht
  have hmap : t.map lowerChar = t := by
    rw [List.map_congr_left (fun c hc => lowerChar_eq_self (hmem c hc)), List.map_id']
  have hcollapse : collapseRuns t = t :=
    collapseAux_eq_self t hmem hch hlast
  have hlead : dropLeadHyphen t = t :=
    dropLeadHyphen_eq_self hhead
  have htail : dropTailHyphen t = t := by
    rw [dropTailHyphen]
    have hhr : ∀ c, t.reverse.head? = some c → c ≠ '-' := by
      intro c hc
      rw [List.head?_reverse] at hc
      intro he
      subst he
      exact hlast hc
    rw [dropLeadHyphen_eq_self hhr, List.reverse_reverse]
  show (⟨dropTailHyphen (dropLeadHyphen (collapseRuns ((slugifyCategory s).data.map lowerChar)))⟩ : String) =
    slugifyCategory s
  rw [← ht, hmap, hcollapse, hlead, htail]

/-! ### Stability of the item sort -/

lemma filter_orderedInsert_item_pos (a : HandbookNavItem) (k : Int) (hak : a.order = k) :
    ∀ l : List HandbookNavItem,
      (List.orderedInsert itemLE a l).filter (fun x => x.order == k) =
        a :: l.filter (fun x => x.order == k) := by
  intro l
  induction l with
  | nil => simp [List.orderedInsert, List.filter, hak]
  | cons b l ih =>
    rw [List.orderedInsert]
    by_cases hab : itemLE a b
    · rw [if_pos hab]
      simp [List.filter_cons, beq_iff_eq, hak]
    · have hab' : ¬(a.order ≤ b.order) := hab
      have hbk : (b.order == k) = false := by
        simp only [beq_eq_false_iff_ne, ne_eq]
        omega
      rw [if_neg hab]
      simp only [List.filter_cons, hbk]
      rw [ih]
      simp

lemma filter_orderedInsert_item_neg (a : HandbookNavItem) (k : Int) (hak : a.order ≠ k) :
    ∀ l : List HandbookNavItem,
      (List.orderedInsert itemLE a l).filter (fun x => x.order == k) =
        l.filter (fun x => x.order == k) := by
  intro l
  induction l with
  | nil => simp [List.orderedInsert, List.filter_cons, beq_iff_eq, hak]
  | cons b l ih =>
    rw [List.orderedInsert]
    by_cases hab : itemLE a b
    · rw [if_pos hab]
      simp [List.filter_cons, beq_iff_eq, hak]
    · rw [if_neg hab]
      simp only [List.filter_cons]
      rw [ih]

lemma filter_insertionSort_item (k : Int) :
    ∀ l : List HandbookNavItem,
      (List.insertionSort itemLE l).filter (fun x => x.order == k) =
        l.filter (fun x => x.order == k) := by
  intro l
  induction l with
  | nil => rfl
  | cons a l ih =>
    rw [List.insertionSort]
    by_cases hak : a.order = k
    · rw [filter_orderedInsert_item_pos a k hak, ih]
      simp [List.filter_cons, beq_iff_eq, hak]
    · rw [filter_orderedInsert_item_neg a k hak, ih]
      simp [List.filter_cons, beq_iff_eq, hak]

/-! ### Structure of the navigation categories -/

lemma mem_categories_iff {files : List ContentFile} {cat : HandbookCategory} :
    cat ∈ (getHandbookNavigation files).categories ↔
      ∃ name ∈ categoryKeys (categorizedNavPages files),
        cat = mkCategory (categorizedNavPages files) name := by
  rw [getHandbookNavigation]
  simp only [List.mem_insertionSort, List.mem_map]
  constructor
  · rintro ⟨name, hn, he⟩
    exact ⟨name, hn, he.symm⟩
  · rintro ⟨name, hn, he⟩
    exact ⟨name, hn, he.symm⟩

lemma jsOrDefault_idem (v : Int) : jsOrDefault (jsOrDefault v 999) 999 = jsOrDefault v 999 := by
  unfold jsOrDefault
  by_cases h : v = 0 <;> simp [h]

/-! ### findIdx? helpers -/

lemma findIdx?_go_some {α : Type} (p : α → Bool) :
    ∀ (l : List α) (i : Nat) (h : i < l.length), p (l.get ⟨i, h⟩) = true →
      (∀ j (hj : j < l.length), j < i → p (l.get ⟨j, hj⟩) = false) →
      ∀ s : Nat, List.findIdx? p l s = some (s + i) := by
  intro l
  induction l with
  | nil => intro i h; exact absurd h (by simp)
  | cons a l ih =>
    intro i h hp hmin s
    rw [List.findIdx?_cons]
    cases i with
    | zero =>
      rw [show (a :: l).get ⟨0, h⟩ = a from rfl] at hp
      rw [hp, if_pos rfl]
      simp
    | succ i =>
      have ha : p a = false := hmin 0 (by simp) (Nat.succ_pos i)
      rw [ha]
      simp only [Bool.false_eq_true, if_false]
      have h' : i < l.length := by simpa using h
      have hp' : p (l.get ⟨i, h'⟩) = true := by simpa using hp
      have hmin' : ∀ j (hj : j < l.length), j < i → p (l.get ⟨j, hj⟩) = false := by
        intro j hj hji
        have := hmin (j + 1) (by simpa using Nat.succ_lt_succ hj) (Nat.succ_lt_succ hji)
        simpa using this
      rw [ih i h' hp' hmin' (s + 1)]
      congr 1
      omega

/-! ### Claim C7 -/

/-- C7: the category slugification is deterministic (it is a pure function)
and idempotent — `slugify (slugify s) = slugify s` for every string `s` — and
`slugify "Frameworks & Libraries" = "frameworks-libraries"`. -/
theorem C7_slugify_idempotent :
    (∀ s : String, slugifyCategory (slugifyCategory s) = slugifyCategory s) ∧
      slugifyCategory "Frameworks & Libraries" = "frameworks-libraries" :=
  ⟨slugifyCategory_idem, by decide⟩

/-! ### Claims C1 and C2: prev/next resolution -/

/-- A one-element flattened list whose only slug is `intro`, used to exhibit
the behaviour of the prev/next resolution on a slug that is not in the list. -/
def c1Pages : List HandbookNavItem :=
  [{ slug := "intro", title := "Introduction", order := 1, category := none,
     categoryOrder := 999 }]

/-- C1 counterexample: for the non-empty flattened list `c1Pages` and the
absent slug `missing`, the prev/next resolution does not return both absent:
`currentIndex` is `-1`, and since `-1 < pages.length - 1` the next computation
reads `pages[0]`. -/
theorem C1_counterexample :
    c1Pages ≠ [] ∧ "missing" ∉ c1Pages.map HandbookNavItem.slug ∧
      articlePrevNext c1Pages "missing" ≠ (none, none) := by
  decide

/-- C1 (amended): for every non-empty flattened page list and every slug that
does not occur in it, the prev/next resolution returns previous absent, but
next equal to the first element of the list (`pages[0]`), because only the
previous computation guards the `-1` index while `-1 < pages.length - 1`
holds for any non-empty list. -/
theorem C1_prevnext_absent_slug (pages : List HandbookNavItem) (slug : String)
    (hne : pages ≠ []) (habs : ∀ p ∈ pages, p.slug ≠ slug) :
    articlePrevNext pages slug = (none, pages[0]?) := by
  have hidx : pages.findIdx? (fun p => p.slug == slug) = none := by
    rw [List.findIdx?_eq_none_iff]
    intro p hp
    simp only [beq_eq_false_iff_ne, ne_eq]
    exact habs p hp
  have hlen : 0 < pages.length := List.length_pos.mpr hne
  rw [articlePrevNext, articleCurrentIndex, hidx]
  simp only []
  rw [if_neg (by omega), if_pos (by omega)]
  rw [jsIndex, if_neg (by omega)]
  norm_num

/-- C1 witness: the amended statement at the concrete input. -/
theorem C1_witness : articlePrevNext c1Pages "missing" = (none, c1Pages[0]?) :=
  C1_prevnext_absent_slug c1Pages "missing" (by decide) (by decide)

/-- C2: for a flattened list with pairwise distinct slugs (the spec's slug
uniqueness invariant) and a slug occurring at position `i`: at the first
position previous is absent, at the last position next is absent, and at any
other position previous is the element at `i - 1` and next the element at
`i + 1`. -/
theorem C2_prevnext_positions (pages : List HandbookNavItem) (slug : String) (i : Nat)
    (h : i < pages.length) (hnd : (pages.map HandbookNavItem.slug).Nodup)
    (hs : (pages.get ⟨i, h⟩).slug = slug) :
    (i = 0 → (articlePrevNext pages slug).1 = none) ∧
    (0 < i → (articlePrevNext pages slug).1 = pages[i - 1]?) ∧
    (i + 1 = pages.length → (articlePrevNext pages slug).2 = none) ∧
    (i + 1 < pages.length → (articlePrevNext pages slug).2 = pages[i + 1]?) := by
  have hmin : ∀ j (hj : j < pages.length), j < i →
      (fun p => p.slug == slug) (pages.get ⟨j, hj⟩) = false := by
    intro j hj hji
    simp only [beq_eq_false_iff_ne, ne_eq]
    intro he
    have hmapj : (pages.map HandbookNavItem.slug).get ⟨j, by simpa using hj⟩ = slug := by
      simpa [List.get_map] using he
    have hmapi : (pages.map HandbookNavItem.slug).get ⟨i, by simpa using h⟩ = slug := by
      simpa [List.get_map] using hs
    have hfin := (hnd.get_inj_iff).mp (hmapj.trans hmapi.symm)
    have : j = i := by simpa using congrArg Fin.val hfin
    omega
  have hidx : pages.findIdx? (fun p => p.slug == slug) = some i := by
    have := findIdx?_go_some (fun p => p.slug == slug) pages i h
      (by simp only [beq_iff_eq]; exact hs) hmin 0
    simpa using this
  rw [articlePrevNext, articleCurrentIndex, hidx]
  simp only []
  refine ⟨?_, ?_, ?_, ?_⟩
  · intro h0
    subst h0
    rw [if_neg (by omega)]
  · intro h0
    rw [if_pos (by omega), jsIndex, if_neg (by omega)]
    have : ((i : Int) - 1).toNat = i - 1 := by omega
    rw [this]
  · intro hlast
    rw [if_neg (by omega)]
  · intro hin
    rw [if_pos (by omega), jsIndex, if_neg (by omega)]
    have : ((i : Int) + 1).toNat = i + 1 := by omega
    rw [this]

/-- A three-element flattened list with distinct slugs for the C2 witness. -/
def c2Pages : List HandbookNavItem :=
  [{ slug := "", title := "Introduction", order := 0, category := none, categoryOrder := 999 },
   { slug := "js", title := "JavaScript", order := 1, category := some "Fundamentals",
     categoryOrder := 1 },
   { slug := "css", title := "CSS", order := 2, category := some "Fundamentals",
     categoryOrder := 1 }]

/-- C2 witness: the interior position of the concrete three-element list. -/
theorem C2_witness :
    (articlePrevNext c2Pages "js").1 = c2Pages[0]? ∧
      (articlePrevNext c2Pages "js").2 = c2Pages[2]? := by
  have h := C2_prevnext_positions c2Pages "js" 1 (by decide) (by decide) (by decide)
  exact ⟨h.2.1 (by decide), h.2.2.2 (by decide)⟩

/-! ### Claim C3: sortedness and stability of the navigation -/

/-- C3: in every navigation built from a content set, the items of each
category are sorted by ascending `order` with ties preserving the original
file-enumeration order (the filter by any order value `k` is unchanged from
the grouped, enumeration-ordered item list), and the categories are sorted by
ascending `order`. -/
theorem C3_navigation_sorted (files : List ContentFile) :
    (∀ cat ∈ (getHandbookNavigation files).categories,
       cat.items.Sorted itemLE ∧
         ∀ k : Int, cat.items.filter (fun x => x.order == k) =
           (rawCategoryItems (categorizedNavPages files) cat.name).filter
             (fun x => x.order == k)) ∧
      (getHandbookNavigation files).categories.Sorted catLE := by
  constructor
  · intro cat hcat
    obtain ⟨name, _, he⟩ := mem_categories_iff.mp hcat
    subst he
    simp only [mkCategory]
    exact ⟨List.sorted_insertionSort itemLE _, fun k => filter_insertionSort_item k _⟩
  · rw [getHandbookNavigation]
    exact List.sorted_insertionSort catLE _

/-- Helper for the concrete scenarios below: a content file with the given
name, title, `order`, `category` and `categoryOrder` front matter. -/
def mkFile (name title : String) (order : Int) (category : Option String)
    (categoryOrder : Option Int) : ContentFile :=
  ⟨name, ⟨some title, none, none, some order, category, categoryOrder⟩, ""⟩

/-- Content files exercising the C3 statement: one category with an
out-of-order pair of items. -/
def c3Files : List ContentFile :=
  [mkFile "index.md" "Intro" 0 none none,
   mkFile "a.md" "A" 2 (some "Fundamentals") (some 1),
   mkFile "b.md" "B" 1 (some "Fundamentals") (some 1)]

/-- C3 witness: the concrete navigation's first category has sorted items and
the category list is sorted. -/
theorem C3_witness :
    ((getHandbookNavigation c3Files).categories.head (by decide)).items.Sorted itemLE ∧
      (getHandbookNavigation c3Files).categories.Sorted catLE := by
  refine ⟨?_, (C3_navigation_sorted c3Files).2⟩
  exact ((C3_navigation_sorted c3Files).1 _ (List.head_mem (by decide))).1

/-! ### Claims C4 and C9: first-seen category order and the zero sentinel -/

lemma categorizedNavPages_append (l₁ l₂ : List ContentFile) :
    categorizedNavPages (l₁ ++ l₂) = categorizedNavPages l₁ ++ categorizedNavPages l₂ := by
  unfold categorizedNavPages allNavPages
  rw [List.filter_append, List.map_append, List.filter_append]

lemma categorizedNavPages_cons_of_categorized {f : ContentFile} (post : List ContentFile)
    (hmd : hasMdExt f.name = true) (hslug : slugOfFileName f.name ≠ "")
    (hcat : (toNavItem f).category.isSome = true) :
    categorizedNavPages (f :: post) = toNavItem f :: categorizedNavPages post := by
  unfold categorizedNavPages allNavPages
  rw [List.filter_cons, if_pos hmd, List.map_cons, List.filter_cons]
  have hs : ((toNavItem f).slug == "") = false := by
    simp only [beq_eq_false_iff_ne, ne_eq]
    exact hslug
  rw [if_pos (by rw [hs, hcat]; rfl)]

/-- First-occurrence-wins for the category order: if no file before `f`
contributes a categorized page in category `c`, and `f` itself does, then the
category `c` of the resulting navigation has order
`jsOrDefault (toNavItem f).categoryOrder 999`, whatever files follow. -/
lemma category_order_of_first_file (pre post : List ContentFile) (f : ContentFile)
    (c : String)
    (hmd : hasMdExt f.name = true)
    (hslug : slugOfFileName f.name ≠ "")
    (hcat : (toNavItem f).category = some c)
    (hpre : ∀ p ∈ categorizedNavPages pre, p.category ≠ some c) :
    ∀ cat ∈ (getHandbookNavigation (pre ++ f :: post)).categories, cat.name = c →
      cat.order = jsOrDefault (toNavItem f).categoryOrder 999 := by
  intro cat hcatmem hname
  have hfind : (categorizedNavPages (pre ++ f :: post)).find?
      (fun q => q.category == some c) = some (toNavItem f) := by
    rw [categorizedNavPages_append, List.find?_append]
    have h1 : (categorizedNavPages pre).find? (fun q => q.category == some c) = none := by
      rw [List.find?_eq_none]
      intro q hq
      simp only [beq_iff_eq]
      exact hpre q hq
    rw [h1, Option.none_or,
      categorizedNavPages_cons_of_categorized post hmd hslug (by rw [hcat]; rfl)]
    rw [List.find?_cons_of_pos _ (by simp [hcat])]
  obtain ⟨name, _, he⟩ := mem_categories_iff.mp hcatmem
  subst he
  have hnc : name = c := hname
  subst hnc
  show jsOrDefault (rawCategoryOrder (categorizedNavPages (pre ++ f :: post)) name) 999 = _
  rw [rawCategoryOrder, hfind]
  exact jsOrDefault_idem _

/-- The two files of the C4 counterexample: the first declares
`categoryOrder: 0` for category `X`, the second `categoryOrder: 1`. -/
def c4Files : List ContentFile :=
  [mkFile "a.md" "A" 1 (some "X") (some 0),
   mkFile "b.md" "B" 2 (some "X") (some 1)]

/-- C4 counterexample: the first-encountered file of category `X` declares
`categoryOrder` 0 and a later file declares 1, yet the category's order is
999 — not the first file's declared value 0 (the `|| 999` fallback treats 0
as absent). -/
theorem C4_counterexample :
    (c4Files.map (fun f => f.fm.categoryOrder)) = [some 0, some 1] ∧
      (getHandbookNavigation c4Files).categories.map HandbookCategory.order = [999] ∧
      (getHandbookNavigation c4Files).categories.map HandbookCategory.order ≠ [0] := by
  decide

/-- C4 (amended): for every content set split as `pre ++ f :: post` where no
file of `pre` contributes a categorized page named `c` and `f` does, the
category `c` of the navigation has order equal to the first-encountered
file's `categoryOrder` passed through the JavaScript `|| 999` fallback (a
declared 0 becomes the 999 sentinel); files in `post` never override it. -/
theorem C4_first_seen_category_order (pre post : List ContentFile) (f : ContentFile)
    (c : String)
    (hmd : hasMdExt f.name = true)
    (hslug : slugOfFileName f.name ≠ "")
    (hcat : (toNavItem f).category = some c)
    (hpre : ∀ p ∈ categorizedNavPages pre, p.category ≠ some c) :
    ∀ cat ∈ (getHandbookNavigation (pre ++ f :: post)).categories, cat.name = c →
      cat.order = jsOrDefault (toNavItem f).categoryOrder 999 :=
  category_order_of_first_file pre post f c hmd hslug hcat hpre

/-- The two files of the C4 witness: first-seen `categoryOrder` 5, then 1. -/
def c4wFiles : List ContentFile :=
  [mkFile "c.md" "C" 1 (some "X") (some 5),
   mkFile "d.md" "D" 2 (some "X") (some 1)]

/-- C4 witness: at the concrete input the category `X` keeps the
first-encountered `categoryOrder` 5 even though a later file declares 1. -/
theorem C4_witness :
    ((getHandbookNavigation c4wFiles).categories.head (by decide)).order = 5 := by
  have h := C4_first_seen_category_order [] [c4wFiles.get ⟨1, by decide⟩]
    (c4wFiles.get ⟨0, by decide⟩) "X" (by decide) (by decide) (by decide)
    (by intro p hp; simp [categorizedNavPages, allNavPages] at hp)
  exact h _ (List.head_mem (by decide)) (by decide)

/-- The two files of the C9 scenario: the first declares an item `order` of 0
and a `categoryOrder` of 0 for category `Z`. -/
def c9Files : List ContentFile :=
  [mkFile "a.md" "A" 0 (some "Z") (some 0),
   mkFile "b.md" "B" 5 (some "Z") (some 1)]

/-- C9: a declared `categoryOrder` of 0 on the first-encountered file of a
category is treated as absent — the category's order becomes the 999 sentinel
— whereas a declared item `order` of 0 is preserved; concretely, `c9Files`
yields a category of order 999 whose items with order 0 sort first. -/
theorem C9_zero_category_order (pre post : List ContentFile) (f : ContentFile)
    (c : String)
    (hmd : hasMdExt f.name = true)
    (hslug : slugOfFileName f.name ≠ "")
    (hcat : (toNavItem f).category = some c)
    (hpre : ∀ p ∈ categorizedNavPages pre, p.category ≠ some c)
    (hzero : f.fm.categoryOrder = some 0) :
    (∀ cat ∈ (getHandbookNavigation (pre ++ f :: post)).categories, cat.name = c →
       cat.order = 999) ∧
    (∀ g : ContentFile, g.fm.order = some 0 → (toNavItem g).order = 0) ∧
    (getHandbookNavigation c9Files).categories.map
        (fun cat => (cat.order, cat.items.map HandbookNavItem.order)) = [(999, [0, 5])] := by
  refine ⟨?_, ?_, by decide⟩
  · intro cat hcatmem hname
    have h := category_order_of_first_file pre post f c hmd hslug hcat hpre cat hcatmem hname
    rw [h]
    show jsOrDefault (f.fm.categoryOrder.getD 999) 999 = 999
    rw [hzero]
    rfl
  · intro g hg
    show g.fm.order.getD 999 = 0
    rw [hg]
    rfl

/-- C9 witness: the C9 statement at the concrete two-file input. -/
theorem C9_witness :
    ((getHandbookNavigation c9Files).categories.head (by decide)).order = 999 ∧
      (toNavItem (c9Files.get ⟨0, by decide⟩)).order = 0 := by
  have h := C9_zero_category_order [] [c9Files.get ⟨1, by decide⟩]
    (c9Files.get ⟨0, by decide⟩) "Z" (by decide) (by decide) (by decide)
    (by intro p hp; simp [categorizedNavPages, allNavPages] at hp) (by decide)
  exact ⟨h.1 _ (List.head_mem (by decide)) (by decide), h.2.1 _ (by decide)⟩

/-! ### Claims C5 and C6: slugs and page resolution -/

lemma name_eq_of_hasMdExt {n : String} (h : hasMdExt n = true) :
    n = stripMd n ++ ".md" := by
  have hd : n.data.reverse.take 3 = ['d', 'm', '.'] := by
    simpa [hasMdExt] using h
  have hsplit : n.data.reverse = ['d', 'm', '.'] ++ n.data.reverse.drop 3 := by
    conv_lhs => rw [← List.take_append_drop 3 n.data.reverse]
    rw [hd]
  have hdata : n.data = (n.data.reverse.drop 3).reverse ++ ['.', 'm', 'd'] := by
    have h2 := congrArg List.reverse hsplit
    rw [List.reverse_reverse, List.reverse_append] at h2
    simpa using h2
  have hstrip : (stripMd n).data = (n.data.reverse.drop 3).reverse := by
    rw [stripMd, if_pos h]
  apply String.ext
  rw [String.data_append, hstrip]
  exact hdata

lemma name_eq_slug_md {f : ContentFile} (hmd : hasMdExt f.name = true)
    (hslug : slugOfFileName f.name ≠ "") :
    f.name = slugOfFileName f.name ++ ".md" := by
  simp only [slugOfFileName] at hslug ⊢
  by_cases hb : (stripMd f.name == "index") = true
  · rw [if_pos hb] at hslug
    exact absurd rfl hslug
  · rw [if_neg hb]
    exact name_eq_of_hasMdExt hmd

lemma isSome_map {α β : Type} (g : α → β) (o : Option α) : (o.map g).isSome = o.isSome := by
  cases o <;> rfl

lemma getHandbookPage_isSome_of_name (files : List ContentFile) (slug : String)
    (hne : slug ≠ "") (hmem : ∃ f ∈ files, f.name = slug ++ ".md") :
    (getHandbookPage files slug).isSome = true := by
  rw [getHandbookPage, isSome_map, List.find?_isSome]
  obtain ⟨f, hf, he⟩ := hmem
  refine ⟨f, hf, ?_⟩
  have hsne : (slug == "") = false := by
    simp only [beq_eq_false_iff_ne, ne_eq]
    exact hne
  simp [hsne, he]

/-- The single-file content directory that breaks C5: a file named exactly
`.md`, whose derived slug is the empty string although no `index.md` exists. -/
def c5File : ContentFile :=
  ⟨".md", ⟨none, none, none, none, none, none⟩, ""⟩

/-- C5 counterexample: for the directory `[c5File]`, `getAllHandbookSlugs`
returns the empty slug, yet `getHandbookPage` on that slug is absent (it
looks for `index.md`, which does not exist). -/
theorem C5_counterexample :
    "" ∈ getAllHandbookSlugs [c5File] ∧ getHandbookPage [c5File] "" = none := by
  decide

/-- C5 (amended): every non-empty slug returned by `getAllHandbookSlugs`
resolves to a non-absent page, and the empty slug resolves whenever a file
named `index.md` exists; the only failing case is the empty slug derived from
a file named exactly `.md` with no `index.md` present. -/
theorem C5_slugs_resolve :
    (∀ (files : List ContentFile) (slug : String),
       slug ∈ getAllHandbookSlugs files → slug ≠ "" →
         (getHandbookPage files slug).isSome = true) ∧
    (∀ files : List ContentFile, (∃ f ∈ files, f.name = "index.md") →
       (getHandbookPage files "").isSome = true) := by
  constructor
  · intro files slug hmem hne
    rw [getAllHandbookSlugs] at hmem
    obtain ⟨f, hf, he⟩ := List.mem_map.mp hmem
    have hfl := List.mem_filter.mp hf
    apply getHandbookPage_isSome_of_name files slug hne
    refine ⟨f, hfl.1, ?_⟩
    rw [← he]
    exact name_eq_slug_md hfl.2 (he ▸ hne)
  · intro files hmem
    rw [getHandbookPage, isSome_map, List.find?_isSome]
    obtain ⟨f, hf, he⟩ := hmem
    exact ⟨f, hf, by simp [he]⟩

/-- The two-file directory for the C5 witness. -/
def c5wFiles : List ContentFile :=
  [mkFile "index.md" "Intro" 0 none none,
   mkFile "react.md" "React" 1 (some "Frameworks & Libraries") (some 2)]

/-- C5 witness: the amended statement at the concrete directory. -/
theorem C5_witness :
    (getHandbookPage c5wFiles "react").isSome = true ∧
      (getHandbookPage c5wFiles "").isSome = true := by
  refine ⟨C5_slugs_resolve.1 c5wFiles "react" (by decide) (by decide), ?_⟩
  exact C5_slugs_resolve.2 c5wFiles ⟨mkFile "index.md" "Intro" 0 none none, by decide, rfl⟩

/-- C6: a slug whose resolved filename (`index.md` for the empty slug,
`slug + ".md"` otherwise) matches no content file yields `none` — a value,
not an exception; in particular `nonexistent-slug` yields `none` whenever no
file `nonexistent-slug.md` exists. -/
theorem C6_missing_slug_absent :
    (∀ (files : List ContentFile) (slug : String),
       (∀ f ∈ files, f.name ≠ (if slug == "" then "index.md" else slug ++ ".md")) →
         getHandbookPage files slug = none) ∧
    (∀ files : List ContentFile,
       (∀ f ∈ files, f.name ≠ "nonexistent-slug.md") →
         getHandbookPage files "nonexistent-slug" = none) := by
  have main : ∀ (files : List ContentFile) (slug : String),
      (∀ f ∈ files, f.name ≠ (if slug == "" then "index.md" else slug ++ ".md")) →
        getHandbookPage files slug = none := by
    intro files slug habs
    rw [getHandbookPage]
    have hfind : files.find?
        (fun f => f.name == (if slug == "" then "index.md" else slug ++ ".md")) = none := by
      rw [List.find?_eq_none]
      intro f hf
      simp only [beq_iff_eq] at habs ⊢
      exact habs f hf
    rw [hfind]
    rfl
  refine ⟨main, fun files habs => main files "nonexistent-slug" ?_⟩
  intro f hf
  rw [show (if ("nonexistent-slug" == "") = true then "index.md"
      else "nonexistent-slug" ++ ".md") = "nonexistent-slug.md" from by decide]
  exact habs f hf

/-- C6 witness: the concrete directory `c5wFiles` with two present files and
two absent slugs. -/
theorem C6_witness :
    getHandbookPage c5wFiles "nonexistent-slug" = none ∧
      getHandbookPage c5wFiles "vue" = none := by
  refine ⟨C6_missing_slug_absent.2 c5wFiles (by decide),
    C6_missing_slug_absent.1 c5wFiles "vue" (by decide)⟩

/-! ### Claim C8: breadcrumb depth -/

lemma optStr_ne_empty {o : Option String} {c : String} (h : optStr o = some c) : c ≠ "" := by
  cases o with
  | none => simp [optStr] at h
  | some s =>
    simp only [optStr] at h
    by_cases hs : s = ""
    · rw [if_pos hs] at h
      exact absurd h (by simp)
    · rw [if_neg hs] at h
      have hsc : s = c := Option.some.inj h
      rw [← hsc]
      exact hs

/-- C8: for every page resolved by `getHandbookPage`, the breadcrumb JSON-LD
has exactly the 3 entries Home, Handbook, Page with positions 1, 2, 3 when
the page has no category, and exactly the 4 entries Home, Handbook, Category,
Page with positions 1, 2, 3, 4 when it has one. -/
theorem C8_breadcrumb_depth (files : List ContentFile) (slug : String) (page : HandbookPage)
    (hres : getHandbookPage files slug = some page) :
    (page.category = none →
       (generateBreadcrumbJsonLd page slug).map BreadcrumbItem.position = [1, 2, 3]) ∧
    (∀ c, page.category = some c →
       (generateBreadcrumbJsonLd page slug).map BreadcrumbItem.position = [1, 2, 3, 4]) := by
  constructor
  · intro hnone
    rw [generateBreadcrumbJsonLd,
      show optTruthy page.category = false from by rw [hnone]; rfl]
    rfl
  · intro c hsome
    rw [getHandbookPage] at hres
    obtain ⟨f, _, hpage⟩ := Option.map_eq_some'.mp hres
    have hcat : page.category = optStr f.fm.category := by rw [← hpage]
    have hcne : c ≠ "" := optStr_ne_empty (hcat ▸ hsome)
    rw [generateBreadcrumbJsonLd,
      show optTruthy page.category = true from by rw [hsome]; simpa [optTruthy] using hcne]
    rfl

/-- The two-file directory for the C8 witness. -/
def c8Files : List ContentFile :=
  [mkFile "index.md" "Intro" 0 none none,
   mkFile "react.md" "React" 1 (some "Frameworks & Libraries") (some 2)]

/-- C8 witness: the concrete resolved pages — with and without a category —
yield breadcrumb position lists `[1, 2, 3, 4]` and `[1, 2, 3]`. -/
theorem C8_witness :
    (generateBreadcrumbJsonLd ((getHandbookPage c8Files "react").get (by decide)) "react").map
        BreadcrumbItem.position = [1, 2, 3, 4] ∧
      (generateBreadcrumbJsonLd ((getHandbookPage c8Files "").get (by decide)) "").map
        BreadcrumbItem.position = [1, 2, 3] := by
  constructor
  · exact (C8_breadcrumb_depth c8Files "react" _ (Option.some_get _).symm).2
      "Frameworks & Libraries" (by decide)
  · exact (C8_breadcrumb_depth c8Files "" _ (Option.some_get _).symm).1 (by decide)

/-! ### Claim C10: uncategorized pages are outside the navigation -/

lemma mem_flatten_categories {x : HandbookNavItem} :
    ∀ l : List HandbookCategory,
      (x ∈ l.foldr (fun c acc => c.items ++ acc) []) ↔ ∃ c ∈ l, x ∈ c.items := by
  intro l
  induction l with
  | nil => simp
  | cons c l ih => simp [List.mem_append, ih]

lemma items_invariant (files : List ContentFile) :
    ∀ cat ∈ (getHandbookNavigation files).categories, ∀ p ∈ cat.items,
      p.slug ≠ "" ∧ p.category.isSome = true := by
  intro cat hcat p hp
  obtain ⟨name, _, he⟩ := mem_categories_iff.mp hcat
  subst he
  simp only [mkCategory] at hp
  rw [List.mem_insertionSort] at hp
  have hp2 := (List.mem_filter.mp hp).1
  have hp3 := (List.mem_filter.mp hp2).2
  rw [Bool.and_eq_true] at hp3
  constructor
  · intro he
    rw [he] at hp3
    exact absurd hp3.1 (by decide)
  · exact hp3.2

/-- C10: a `.md` content file with a non-empty slug and no (or an
empty-string) category contributes no item to any category and is absent from
the flattened page list, although `getHandbookPage` still resolves its slug;
every item inside a category has a non-empty slug and a category, so only the
empty-slug introduction appears in the navigation without one. -/
theorem C10_uncategorized_excluded (files : List ContentFile) (f : ContentFile)
    (hf : f ∈ files) (hmd : hasMdExt f.name = true)
    (hslug : slugOfFileName f.name ≠ "")
    (hcat : optStr f.fm.category = none) :
    toNavItem f ∉ getAllHandbookPages files ∧
    (getHandbookPage files (slugOfFileName f.name)).isSome = true ∧
    (∀ cat ∈ (getHandbookNavigation files).categories, ∀ p ∈ cat.items,
       p.slug ≠ "" ∧ p.category.isSome = true) := by
  refine ⟨?_, ?_, items_invariant files⟩
  · intro hmem
    rw [getAllHandbookPages] at hmem
    rcases List.mem_append.mp hmem with h | h
    · cases hfind : (getHandbookNavigation files).introduction with
      | none => rw [hfind] at h; exact absurd h (by simp)
      | some i =>
        rw [hfind] at h
        have he : toNavItem f = i := by simpa using h
        have hi := List.find?_some hfind
        rw [← he] at hi
        have : (toNavItem f).slug = "" := by simpa using hi
        exact hslug this
    · obtain ⟨cat, hcatmem, hitem⟩ := (mem_flatten_categories _).mp h
      have hinv := (items_invariant files cat hcatmem _ hitem).2
      have : (toNavItem f).category = none := hcat
      rw [this] at hinv
      exact absurd hinv (by decide)
  · exact getHandbookPage_isSome_of_name files _ hslug ⟨f, hf, name_eq_slug_md hmd hslug⟩

/-- The three-file directory for the C10 witness: `orphan.md` has a non-empty
slug but no category. -/
def c10Files : List ContentFile :=
  [mkFile "index.md" "Intro" 0 none none,
   mkFile "orphan.md" "Orphan" 1 none none,
   mkFile "a.md" "A" 1 (some "Fundamentals") (some 1)]

/-- C10 witness: the orphan page is not in the flattened list, yet its slug
resolves. -/
theorem C10_witness :
    toNavItem (mkFile "orphan.md" "Orphan" 1 none none) ∉ getAllHandbookPages c10Files ∧
      (getHandbookPage c10Files (slugOfFileName "orphan.md")).isSome = true := by
  have h := C10_uncategorized_excluded c10Files (mkFile "orphan.md" "Orphan" 1 none none)
    (by decide) (by decide) (by decide) (by decide)
  exact ⟨h.1, h.2.1⟩

end Handbook
